import Mathlib

/-!
Shallow embedding of the Batch-Resizer pipeline
(src/src/components/ImageResizer.jsx).

Conventions of the embedding:
* A browser `File` becomes `ImageFile` (name, MIME type string, content bytes).
* An element of the component's `images` state becomes `ImageItem`; the object
  URL created by `URL.createObjectURL(file)` is modelled by the bytes it
  denotes (`preview`).
* JavaScript's `String.prototype.startsWith` is modelled on the character
  sequence of the string.
* JavaScript numbers appearing in the dimension arithmetic are modelled as
  exact rationals; the branch structure of the code is unchanged.
* The browser collaborators that the component calls -- `Image` decoding,
  `canvas.toBlob` JPEG encoding, and JSZip serialization -- are parameters
  of the orchestration functions (`decode`, `encodeJpeg`, `generateZip`).
* A promise that never settles (the `resizeImage` promise when `img.onload`
  never fires, since no `onerror` handler exists) is modelled by `none`;
  `processAndDownload` therefore returns `none` when the run never completes.
-/

namespace BatchResizer

/-- A dropped or selected file: display name, MIME type string, content bytes. -/
structure ImageFile where
  name : String
  type : String
  bytes : List Nat
  deriving Repr, DecidableEq

/-- The admission filter from the source: `file.type.startsWith('image/')`,
with `startsWith` taken on the character sequence. -/
def isImageFile (f : ImageFile) : Bool :=
  "image/".data.isPrefixOf f.type.data

/-- One element of the `images` state array, as built in `handleDrop` /
`handleFileInput`: `{ file, preview: URL.createObjectURL(file), name: file.name,
originalSize: file.size }`.  The object URL is modelled by the bytes it points
to. -/
structure ImageItem where
  file : ImageFile
  preview : List Nat
  name : String
  originalSize : Nat
  deriving Repr, DecidableEq

/-- The item constructor used by both admission handlers. -/
def mkItem (f : ImageFile) : ImageItem :=
  { file := f, preview := f.bytes, name := f.name, originalSize := f.bytes.length }

/-- `handleDrop`: filter to image MIME types, reject the event when more than
30 image files arrive, otherwise append to the existing state and
`slice(0, 30)`. -/
def handleDrop (prev : List ImageItem) (files : List ImageFile) : List ImageItem :=
  let imageFiles := files.filter isImageFile
  if 30 < imageFiles.length then prev
  else (prev ++ imageFiles.map mkItem).take 30

/-- `handleFileInput`: textually the same admission logic as `handleDrop`. -/
def handleFileInput (prev : List ImageItem) (files : List ImageFile) : List ImageItem :=
  let imageFiles := files.filter isImageFile
  if 30 < imageFiles.length then prev
  else (prev ++ imageFiles.map mkItem).take 30

/-- The dimension computation inside `resizeImage`: start from the requested
box, and when `preserveAspectRatio` holds compare the original aspect ratio
with the target aspect ratio, fitting to width when the original is relatively
wider (strict `>`) and to height otherwise. -/
def planDims (ow oh tw th : ℚ) (preserveAspectRatio : Bool) : ℚ × ℚ :=
  if preserveAspectRatio then
    let originalAspectRatio := ow / oh
    let targetAspectRatio := tw / th
    if originalAspectRatio > targetAspectRatio then
      (tw, tw / originalAspectRatio)
    else
      (th * originalAspectRatio, th)
  else
    (tw, th)

/-- Semantics of the assignments `canvas.width = targetWidth` and
`canvas.height = targetHeight`: the WebIDL `unsigned long` conversion
truncates the number toward zero (for the non-negative values reached here,
the floor).  The source performs no rounding of its own. -/
def canvasDim (q : ℚ) : Nat :=
  (Int.floor q).toNat

/-- Spec-side definition, for comparison with `canvasDim` (refinement of the
rounding claim): round half-up with a minimum of 1, following the spec's words
"rounded (round-half-up, minimum 1)". -/
def specRoundHalfUpMin1 (q : ℚ) : Nat :=
  max 1 (Int.floor (q + 1 / 2)).toNat

/-- A decoded in-memory pixel surface (the loaded `Image`): `img.width`,
`img.height` and pixel data. -/
structure Surface where
  width : Nat
  height : Nat
  pixels : List Nat
  deriving Repr, DecidableEq

/-- The value `resizeImage`'s promise resolves with: `{ blob, name }`. -/
structure ProcessedImage where
  blob : List Nat
  name : String
  deriving Repr, DecidableEq

/-- `resizeImage`: load the item's object URL into an `Image`; on load, plan
the dimensions, set the canvas to them, draw, and encode via
`canvas.toBlob(..., 'image/jpeg', 0.85)`.  `decode` models the browser image
decoder; `encodeJpeg s w h` models drawing `s` scaled onto a `w × h` canvas
and JPEG-encoding it at the fixed quality.  When the bytes do not decode,
`img.onload` never fires and no `onerror` handler exists, so the promise never
settles: modelled by `none`. -/
def resizeImage (decode : List Nat → Option Surface)
    (encodeJpeg : Surface → Nat → Nat → List Nat)
    (width height : ℚ) (preserveAspectRatio : Bool)
    (image : ImageItem) : Option ProcessedImage :=
  match decode image.preview with
  | none => none
  | some img =>
    let dims := planDims img.width img.height width height preserveAspectRatio
    some { blob := encodeJpeg img (canvasDim dims.1) (canvasDim dims.2),
           name := image.name }

/-- The `for` loop of `processAndDownload`: await `resizeImage` for each item
in input order, pushing results.  An item whose promise never settles leaves
the whole loop pending forever (`none`). -/
def processItems (decode : List Nat → Option Surface)
    (encodeJpeg : Surface → Nat → Nat → List Nat)
    (width height : ℚ) (preserveAspectRatio : Bool) :
    List ImageItem → Option (List ProcessedImage)
  | [] => some []
  | image :: rest =>
    match resizeImage decode encodeJpeg width height preserveAspectRatio image with
    | none => none
    | some p =>
      match processItems decode encodeJpeg width height preserveAspectRatio rest with
      | none => none
      | some ps => some (p :: ps)

/-- The values passed to `setProgress` during a complete run over `n` items:
`setProgress(0)` before the loop, then `setProgress(((i + 1) / images.length)
* 100)` after each item. -/
def progressTrace (n : Nat) : List ℚ :=
  0 :: (List.range n).map (fun i : ℕ => (((i : ℚ) + 1) / (n : ℚ)) * 100)

/-- What a completed run produces: the zip entries in insertion order, the
bytes of `zip.generateAsync`, and the progress values emitted. -/
structure RunOutput where
  entries : List (String × List Nat)
  archiveBytes : List Nat
  trace : List ℚ
  deriving Repr, DecidableEq

/-- `processAndDownload`: run the sequential loop; on completion, add one zip
entry per processed image via ``zip.file(`resized-`, blob)`` in order,
generate the archive, and offer it for download.  `generateZip` models JSZip's
serialization of the entry list.  If the loop never completes (a pending
`resizeImage` promise), nothing further happens: `none`. -/
def processAndDownload (decode : List Nat → Option Surface)
    (encodeJpeg : Surface → Nat → Nat → List Nat)
    (generateZip : List (String × List Nat) → List Nat)
    (width height : ℚ) (preserveAspectRatio : Bool)
    (images : List ImageItem) : Option RunOutput :=
  match processItems decode encodeJpeg width height preserveAspectRatio images with
  | none => none
  | some processed =>
    let entries := processed.map (fun p => ("resized-" ++ p.name, p.blob))
    some { entries := entries
           archiveBytes := generateZip entries
           trace := progressTrace images.length }

/-- `processAndDownload` with the clock input of the archiver made explicit:
the source calls `zip.file(name, blob)` with no `date` option, and JSZip's
documented default stamps each entry with the current date, which
`zip.generateAsync` embeds in the entry's local header and central directory.
The serialization is therefore a function of the entries AND the current
time, which the source never pins: `generateZipAt now entries`.  Everything
else is `processAndDownload` unchanged. -/
def processAndDownloadAt (decode : List Nat → Option Surface)
    (encodeJpeg : Surface → Nat → Nat → List Nat)
    (generateZipAt : Nat → List (String × List Nat) → List Nat)
    (now : Nat) (width height : ℚ) (preserveAspectRatio : Bool)
    (images : List ImageItem) : Option RunOutput :=
  match processItems decode encodeJpeg width height preserveAspectRatio images with
  | none => none
  | some processed =>
    let entries := processed.map (fun p => ("resized-" ++ p.name, p.blob))
    some { entries := entries
           archiveBytes := generateZipAt now entries
           trace := progressTrace images.length }

/-- Test fixture: the i-th of a batch of image files (distinct bytes). -/
def pngFile (i : Nat) : ImageFile :=
  { name := "f.png", type := "image/png", bytes := [i] }

/-- Test fixture: thirty image files. -/
def thirtyPngs : List ImageFile :=
  (List.range 30).map pngFile

/-- Test fixture: a state already holding one admitted image. -/
def onePrev : List ImageItem :=
  [mkItem { name := "prev.png", type := "image/png", bytes := [99] }]

/-- Test fixture: a decoder that fails on the bytes [9] and otherwise yields a
400×300 surface carrying the input bytes. -/
def decFix (b : List Nat) : Option Surface :=
  if b = [9] then none else some { width := 400, height := 300, pixels := b }

/-- Test fixture: an injective stand-in for the fixed-quality JPEG encoder:
the canvas dimensions followed by the pixels. -/
def encFix (s : Surface) (w h : Nat) : List Nat :=
  w :: h :: s.pixels

/-- Test fixture: a stand-in for JSZip serialization that concatenates the
entry bytes. -/
def zipFix (entries : List (String × List Nat)) : List Nat :=
  entries.foldr (fun e acc => e.2 ++ acc) []

/-- Test fixture: a timestamp-embedding stand-in for JSZip serialization, as
the real one is (the entry date lands in the zip headers): the stamped date
followed by the entry bytes. -/
def zipFixAt (now : Nat) (entries : List (String × List Nat)) : List Nat :=
  now :: zipFix entries

/-- Test fixture: one valid admitted image. -/
def itemA : ImageItem :=
  mkItem { name := "a.png", type := "image/png", bytes := [1] }

/-- Test fixture: an admitted image whose bytes do not decode under `decFix`. -/
def badItem : ImageItem :=
  mkItem { name := "bad.png", type := "image/png", bytes := [9] }

/-- Test fixture: the output of the one-item run of `itemA` under the fixture
collaborators. -/
def outA : RunOutput :=
  { entries := [("resized-a.png", [800, 600, 1])]
    archiveBytes := [800, 600, 1]
    trace := [0, 100] }

/-- Evaluation helper: `canvasDim` at a value whose floor is known. -/
theorem canvasDim_eq (q : ℚ) (n : ℕ) (h : Int.floor q = (n : ℤ)) :
    canvasDim q = n := by
  rw [canvasDim, h]
  rfl

/-- Evaluation helper: floor bounds for `canvasDim` at a non-negative value. -/
theorem canvasDim_bounds (q : ℚ) (hq : 0 ≤ q) :
    (canvasDim q : ℚ) ≤ q ∧ q < canvasDim q + 1 := by
  have hfl : (0 : ℤ) ≤ Int.floor q := Int.floor_nonneg.mpr hq
  have hcast : ((canvasDim q : ℕ) : ℚ) = ((Int.floor q : ℤ) : ℚ) := by
    rw [canvasDim]
    exact_mod_cast congrArg (fun z : ℤ => (z : ℚ)) (Int.toNat_of_nonneg hfl)
  constructor
  · rw [hcast]
    exact Int.floor_le q
  · rw [hcast]
    exact Int.lt_floor_add_one q

/-- Evaluation helper: the loop preserves the item count. -/
theorem processItems_length (decode : List Nat → Option Surface)
    (encodeJpeg : Surface → Nat → Nat → List Nat) (w h : ℚ) (p : Bool) :
    ∀ (images : List ImageItem) (l : List ProcessedImage),
      processItems decode encodeJpeg w h p images = some l →
      l.length = images.length := by
  intro images
  induction images with
  | nil =>
    intro l hl
    simp only [processItems, Option.some.injEq] at hl
    rw [← hl]
    rfl
  | cons a rest ih =>
    intro l hl
    simp only [processItems] at hl
    cases hr : resizeImage decode encodeJpeg w h p a with
    | none =>
      rw [hr] at hl
      exact absurd hl (by simp)
    | some pa =>
      rw [hr] at hl
      cases hrest : processItems decode encodeJpeg w h p rest with
      | none =>
        rw [hrest] at hl
        exact absurd hl (by simp)
      | some ps =>
        rw [hrest] at hl
        simp only [Option.some.injEq] at hl
        rw [← hl]
        simp [ih ps hrest]

/-- Evaluation helper: on a completed loop the i-th result is exactly the
transcode of the i-th input item. -/
theorem processItems_nth (decode : List Nat → Option Surface)
    (encodeJpeg : Surface → Nat → Nat → List Nat) (w h : ℚ) (p : Bool) :
    ∀ (images : List ImageItem) (l : List ProcessedImage),
      processItems decode encodeJpeg w h p images = some l →
      ∀ i : Nat, l.get? i
        = (images.get? i).bind (resizeImage decode encodeJpeg w h p) := by
  intro images
  induction images with
  | nil =>
    intro l hl i
    simp only [processItems, Option.some.injEq] at hl
    rw [← hl]
    simp
  | cons a rest ih =>
    intro l hl i
    simp only [processItems] at hl
    cases hr : resizeImage decode encodeJpeg w h p a with
    | none =>
      rw [hr] at hl
      exact absurd hl (by simp)
    | some pa =>
      rw [hr] at hl
      cases hrest : processItems decode encodeJpeg w h p rest with
      | none =>
        rw [hrest] at hl
        exact absurd hl (by simp)
      | some ps =>
        rw [hrest] at hl
        simp only [Option.some.injEq] at hl
        rw [← hl]
        cases i with
        | zero => simp [hr]
        | succ j => simpa using ih ps hrest j

/-- Trace helper: the progress values of a completed non-empty run lie in
[0, 100], are sorted non-decreasingly, and end at exactly 100. -/
theorem progressTrace_spec (n : Nat) (hn : 0 < n) :
    (∀ q ∈ progressTrace n, 0 ≤ q ∧ q ≤ 100) ∧
    (progressTrace n).Sorted (· ≤ ·) ∧
    (progressTrace n).getLast? = some 100 := by
  have hnpos : (0 : ℚ) < n := by exact_mod_cast hn
  refine ⟨?_, ?_, ?_⟩
  · intro q hq
    rcases List.mem_cons.mp hq with rfl | hq2
    · exact ⟨le_refl 0, by norm_num⟩
    · rcases List.mem_map.mp hq2 with ⟨i, hi, rfl⟩
      have hi2 : i < n := List.mem_range.mp hi
      constructor
      · positivity
      · have h1 : ((i : ℚ) + 1) / n ≤ 1 := by
          rw [div_le_one hnpos]
          exact_mod_cast Nat.succ_le_of_lt hi2
        calc ((i : ℚ) + 1) / n * 100 ≤ 1 * 100 :=
              mul_le_mul_of_nonneg_right h1 (by norm_num)
          _ = 100 := by norm_num
  · rw [progressTrace, List.sorted_cons]
    constructor
    · intro b hb
      rcases List.mem_map.mp hb with ⟨i, hi, rfl⟩
      positivity
    · refine List.Pairwise.map _ ?_ (List.pairwise_lt_range n)
      intro a b hab
      have hs : ((a : ℚ) + 1) ≤ ((b : ℚ) + 1) := by
        exact_mod_cast Nat.succ_le_succ hab.le
      exact mul_le_mul_of_nonneg_right
        ((div_le_div_right hnpos).mpr hs) (by norm_num)
  · cases n with
    | zero => exact absurd hn (by norm_num)
    | succ m =>
      have hsplit : progressTrace (m + 1)
          = ((0 : ℚ) :: (List.range m).map
              (fun i : ℕ => (((i : ℚ) + 1) / ((m + 1 : ℕ) : ℚ)) * 100))
            ++ [(((m : ℚ) + 1) / ((m + 1 : ℕ) : ℚ)) * 100] := by
        rw [progressTrace, List.range_succ, List.map_append]
        rfl
      rw [hsplit, List.getLast?_concat]
      have hval : (((m : ℚ) + 1) / ((m + 1 : ℕ) : ℚ)) * 100 = 100 := by
        push_cast
        rw [div_self (by positivity)]
        norm_num
      rw [hval]

/-- Test fixture evaluation: the one-item run of `itemA` completes with
`outA`. -/
theorem runA_eq :
    processAndDownload decFix encFix zipFix 800 600 true [itemA] = some outA := by
  have hplan : planDims ((400 : ℕ) : ℚ) ((300 : ℕ) : ℚ) 800 600 true = (800, 600) := by
    norm_num [planDims]
  have hw : canvasDim 800 = 800 := canvasDim_eq _ 800 (by norm_num)
  have hh : canvasDim 600 = 600 := canvasDim_eq _ 600 (by norm_num)
  have htr : progressTrace 1 = [0, 100] := by
    rw [progressTrace, List.range_succ, List.range_zero]
    norm_num
  have hres : resizeImage decFix encFix 800 600 true itemA
      = some ⟨[800, 600, 1], "a.png"⟩ := by
    have hstep : resizeImage decFix encFix 800 600 true itemA
        = some ⟨encFix ⟨400, 300, [1]⟩
            (canvasDim (planDims ((400 : ℕ) : ℚ) ((300 : ℕ) : ℚ) 800 600 true).1)
            (canvasDim (planDims ((400 : ℕ) : ℚ) ((300 : ℕ) : ℚ) 800 600 true).2),
          "a.png"⟩ := rfl
    rw [hstep, hplan]
    simp [encFix, hw, hh]
  have hitems : processItems decFix encFix 800 600 true [itemA]
      = some [⟨[800, 600, 1], "a.png"⟩] := by
    simp only [processItems, hres]
  simp only [processAndDownload, hitems, List.map_cons, List.map_nil]
  have hlen1 : ([itemA] : List ImageItem).length = 1 := rfl
  rw [hlen1, htr]
  rfl

/-- Test fixture evaluation: the one-item run of `itemA` with the clock
explicit completes with the stamped date at the head of the archive bytes. -/
theorem runAat_eq (now : Nat) :
    processAndDownloadAt decFix encFix zipFixAt now 800 600 true [itemA]
      = some { entries := [("resized-a.png", [800, 600, 1])]
               archiveBytes := now :: [800, 600, 1]
               trace := [0, 100] } := by
  have hplan : planDims ((400 : ℕ) : ℚ) ((300 : ℕ) : ℚ) 800 600 true = (800, 600) := by
    norm_num [planDims]
  have hw : canvasDim 800 = 800 := canvasDim_eq _ 800 (by norm_num)
  have hh : canvasDim 600 = 600 := canvasDim_eq _ 600 (by norm_num)
  have htr : progressTrace 1 = [0, 100] := by
    rw [progressTrace, List.range_succ, List.range_zero]
    norm_num
  have hres : resizeImage decFix encFix 800 600 true itemA
      = some ⟨[800, 600, 1], "a.png"⟩ := by
    have hstep : resizeImage decFix encFix 800 600 true itemA
        = some ⟨encFix ⟨400, 300, [1]⟩
            (canvasDim (planDims ((400 : ℕ) : ℚ) ((300 : ℕ) : ℚ) 800 600 true).1)
            (canvasDim (planDims ((400 : ℕ) : ℚ) ((300 : ℕ) : ℚ) 800 600 true).2),
          "a.png"⟩ := rfl
    rw [hstep, hplan]
    simp [encFix, hw, hh]
  have hitems : processItems decFix encFix 800 600 true [itemA]
      = some [⟨[800, 600, 1], "a.png"⟩] := by
    simp only [processItems, hres]
  simp only [processAndDownloadAt, hitems, List.map_cons, List.map_nil]
  have hlen1 : ([itemA] : List ImageItem).length = 1 := rfl
  rw [hlen1, htr]
  rfl

/-- C1: for positive original dimensions with preserveAspectRatio = true, a
relatively wider original fits to width (planned height = targetWidth divided
by the original ratio); otherwise it fits to height (planned width =
targetHeight times the original ratio). -/
theorem C1_preserve_plan (ow oh tw th : ℚ) (how : 0 < ow) (hoh : 0 < oh) :
    (ow / oh > tw / th → planDims ow oh tw th true = (tw, tw / (ow / oh))) ∧
    (¬ ow / oh > tw / th → planDims ow oh tw th true = (th * (ow / oh), th)) := by
  refine ⟨fun h => ?_, fun h => ?_⟩ <;> simp [planDims, h]

/-- C1 witness: a 400×300 original and an 800×600 box have equal ratios, so
the planner fits to height and returns 800×600, the spec's concrete scenario. -/
theorem C1_preserve_plan_witness :
    planDims 400 300 800 600 true = (600 * (400 / 300), 600) :=
  (C1_preserve_plan 400 300 800 600 (by norm_num) (by norm_num)).2 (by norm_num)

/-- C2: with preserveAspectRatio = false the planner returns the requested box
verbatim, for any original dimensions. -/
theorem C2_exact_box (ow oh tw th : ℚ) :
    planDims ow oh tw th false = (tw, th) := by
  simp [planDims]

/-- C3 counterexample: dropping 30 image files (at most the cap, so the event
is not rejected) onto a state already holding one item silently truncates the
batch: the combined list would hold 31 items, the resulting state holds 30,
and the last created item was dropped. -/
theorem C3_counterexample :
    (thirtyPngs.filter isImageFile).length = 30 ∧
    handleDrop onePrev thirtyPngs ≠ onePrev ∧
    (handleDrop onePrev thirtyPngs).length = 30 ∧
    onePrev.length + (thirtyPngs.map mkItem).length = 31 ∧
    pngFile 29 ∈ thirtyPngs ∧ isImageFile (pngFile 29) = true ∧
    mkItem (pngFile 29) ∉ handleDrop onePrev thirtyPngs := by
  decide

/-- C3 amended: a single admission event carrying more than 30 image files is
rejected with no items created; an admitted event's items are appended to the
existing state and the combined list is silently truncated to its first 30
entries (so created items beyond the cap are dropped). -/
theorem C3_cap_amended (prev : List ImageItem) (files : List ImageFile) :
    (30 < (files.filter isImageFile).length → handleDrop prev files = prev) ∧
    ((files.filter isImageFile).length ≤ 30 →
      handleDrop prev files
        = (prev ++ (files.filter isImageFile).map mkItem).take 30 ∧
      (handleDrop prev files).length
        = min (prev.length + (files.filter isImageFile).length) 30) := by
  refine ⟨fun h => ?_, fun h => ⟨?_, ?_⟩⟩
  · simp only [handleDrop]
    rw [if_pos h]
  · simp only [handleDrop]
    rw [if_neg (not_lt.mpr h)]
  · simp only [handleDrop]
    rw [if_neg (not_lt.mpr h), List.length_take, List.length_append, List.length_map]
    omega

/-- C3 amended witness: an event carrying 31 image files is rejected outright. -/
theorem C3_cap_amended_witness :
    handleDrop [] ((List.range 31).map pngFile) = [] :=
  (C3_cap_amended [] ((List.range 31).map pngFile)).1 (by decide)

/-- C4 counterexample: the progress values of a completed one-item run are 0
then 100 -- the final emitted value is 100, not 1.0, and lies outside [0, 1]:
the code emits percentages, not ratios. -/
theorem C4_counterexample :
    (processAndDownload decFix encFix zipFix 800 600 true [itemA]).map RunOutput.trace
      = some [0, 100] ∧ ¬ ((100 : ℚ) ≤ 1) := by
  constructor
  · have h : (processAndDownload decFix encFix zipFix 800 600 true [itemA]).map
        RunOutput.trace = some (progressTrace 1) := rfl
    have h1 : progressTrace 1 = [0, 100] := by
      rw [progressTrace, List.range_succ, List.range_zero]
      norm_num
    rw [h, h1]
  · norm_num

/-- C4 amended: on a completed run over a non-empty batch the emitted progress
values are percentages 100·(completed/total): every value lies in [0, 100],
the sequence is monotonically non-decreasing, and the final value is exactly
100. -/
theorem C4_progress_amended (decode : List Nat → Option Surface)
    (encodeJpeg : Surface → Nat → Nat → List Nat)
    (generateZip : List (String × List Nat) → List Nat)
    (w h : ℚ) (p : Bool) (images : List ImageItem) (out : RunOutput)
    (hne : images ≠ [])
    (hrun : processAndDownload decode encodeJpeg generateZip w h p images = some out) :
    (∀ q ∈ out.trace, 0 ≤ q ∧ q ≤ 100) ∧
    out.trace.Sorted (· ≤ ·) ∧
    out.trace.getLast? = some 100 := by
  have htr : out.trace = progressTrace images.length := by
    cases hpi : processItems decode encodeJpeg w h p images with
    | none =>
      simp only [processAndDownload, hpi] at hrun
      exact absurd hrun (by simp)
    | some processed =>
      simp only [processAndDownload, hpi, Option.some.injEq] at hrun
      rw [← hrun]
  rw [htr]
  exact progressTrace_spec images.length (List.length_pos.mpr hne)

/-- C4 amended witness: the completed one-item run's trace is within bounds,
sorted, and ends at 100. -/
theorem C4_progress_amended_witness :
    (∀ q ∈ outA.trace, 0 ≤ q ∧ q ≤ 100) ∧
    outA.trace.Sorted (· ≤ ·) ∧
    outA.trace.getLast? = some 100 :=
  C4_progress_amended decFix encFix zipFix 800 600 true [itemA] outA
    (by simp) runA_eq

/-- C5 (intent per spec, violated by the code): a batch with one undecodable
item among valid ones never completes -- the only `resolve` sits in
`img.onload` and no `onerror` handler exists, so the failing item's promise
never settles, the `await` never returns, and no archive is produced, instead
of completing with one entry per valid item. -/
theorem C5_run_hangs :
    resizeImage decFix encFix 800 600 true badItem = none ∧
    processAndDownload decFix encFix zipFix 800 600 true [itemA, badItem] = none :=
  ⟨rfl, rfl⟩

/-- C6 counterexample: a 1600×1067 original in an 800×600 box plans height
533.5, which the canvas assignment truncates to 533 instead of rounding
half-up to 534; and a 200×1 original in a 100×600 box gets used height 0,
below the claimed minimum of 1. -/
theorem C6_counterexample :
    (planDims 1600 1067 800 600 true).2 = 1067 / 2 ∧
    canvasDim ((planDims 1600 1067 800 600 true).2) = 533 ∧
    specRoundHalfUpMin1 ((planDims 1600 1067 800 600 true).2) = 534 ∧
    canvasDim ((planDims 200 1 100 600 true).2) = 0 := by
  have h : (planDims 1600 1067 800 600 true).2 = 1067 / 2 := by norm_num [planDims]
  have h2 : (planDims 200 1 100 600 true).2 = 1 / 2 := by norm_num [planDims]
  refine ⟨h, ?_, ?_, ?_⟩
  · rw [h]
    exact canvasDim_eq _ 533 (by norm_num)
  · rw [h]
    norm_num [specRoundHalfUpMin1]
    rfl
  · rw [h2]
    exact canvasDim_eq _ 0 (by norm_num)

/-- C6 amended: before the transcoder uses them the planned dimensions are
converted to integers by truncation toward zero (the value used is the unique
integer d with d ≤ planned < d + 1), not by half-up rounding, and no minimum
of 1 is applied: the used dimensions are non-negative integers that may be 0. -/
theorem C6_truncation_amended (ow oh tw th : ℚ) (p : Bool)
    (how : 0 < ow) (hoh : 0 < oh) (htw : 0 ≤ tw) (hth : 0 ≤ th) :
    0 ≤ (planDims ow oh tw th p).1 ∧ 0 ≤ (planDims ow oh tw th p).2 ∧
    ((canvasDim (planDims ow oh tw th p).1 : ℚ) ≤ (planDims ow oh tw th p).1 ∧
      (planDims ow oh tw th p).1 < canvasDim (planDims ow oh tw th p).1 + 1) ∧
    ((canvasDim (planDims ow oh tw th p).2 : ℚ) ≤ (planDims ow oh tw th p).2 ∧
      (planDims ow oh tw th p).2 < canvasDim (planDims ow oh tw th p).2 + 1) := by
  have hr : 0 < ow / oh := div_pos how hoh
  have hw : 0 ≤ (planDims ow oh tw th p).1 := by
    simp only [planDims]
    split_ifs
    · exact htw
    · exact mul_nonneg hth hr.le
    · exact htw
  have hh : 0 ≤ (planDims ow oh tw th p).2 := by
    simp only [planDims]
    split_ifs
    · exact div_nonneg htw hr.le
    · exact hth
    · exact hth
  exact ⟨hw, hh, canvasDim_bounds _ hw, canvasDim_bounds _ hh⟩

/-- C6 amended witness: at the 1600×1067 original in the 800×600 box, the
planned values are non-negative and the used dimensions bracket them. -/
theorem C6_truncation_amended_witness :
    0 ≤ (planDims 1600 1067 800 600 true).1 ∧
    0 ≤ (planDims 1600 1067 800 600 true).2 ∧
    ((canvasDim (planDims 1600 1067 800 600 true).1 : ℚ)
        ≤ (planDims 1600 1067 800 600 true).1 ∧
      (planDims 1600 1067 800 600 true).1
        < canvasDim (planDims 1600 1067 800 600 true).1 + 1) ∧
    ((canvasDim (planDims 1600 1067 800 600 true).2 : ℚ)
        ≤ (planDims 1600 1067 800 600 true).2 ∧
      (planDims 1600 1067 800 600 true).2
        < canvasDim (planDims 1600 1067 800 600 true).2 + 1) :=
  C6_truncation_amended 1600 1067 800 600 true (by norm_num) (by norm_num)
    (by norm_num) (by norm_num)

/-- C7: a completed run processed the items one at a time in input order with
no reordering and no skipping: the archive holds exactly one entry per input
item, and its i-th entry is derived from the i-th submitted item. -/
theorem C7_order (decode : List Nat → Option Surface)
    (encodeJpeg : Surface → Nat → Nat → List Nat)
    (generateZip : List (String × List Nat) → List Nat)
    (w h : ℚ) (p : Bool) (images : List ImageItem) (out : RunOutput)
    (hrun : processAndDownload decode encodeJpeg generateZip w h p images = some out) :
    out.entries.length = images.length ∧
    ∀ i : Nat, out.entries.get? i
      = (images.get? i).bind (fun img =>
          (resizeImage decode encodeJpeg w h p img).map
            (fun pr => ("resized-" ++ pr.name, pr.blob))) := by
  cases hpi : processItems decode encodeJpeg w h p images with
  | none =>
    simp only [processAndDownload, hpi] at hrun
    exact absurd hrun (by simp)
  | some processed =>
    simp only [processAndDownload, hpi, Option.some.injEq] at hrun
    have hlen := processItems_length decode encodeJpeg w h p images processed hpi
    have hnth := processItems_nth decode encodeJpeg w h p images processed hpi
    have hent : out.entries
        = processed.map (fun pr => ("resized-" ++ pr.name, pr.blob)) := by
      rw [← hrun]
    constructor
    · rw [hent, List.length_map, hlen]
    · intro i
      rw [hent, List.get?_map, hnth i]
      cases images.get? i with
      | none => rfl
      | some img => rfl

/-- C7 witness: the completed one-item run has exactly one entry, derived from
the single submitted item. -/
theorem C7_order_witness :
    outA.entries.length = [itemA].length ∧
    ∀ i : Nat, outA.entries.get? i
      = ([itemA].get? i).bind (fun img =>
          (resizeImage decFix encFix 800 600 true img).map
            (fun pr => ("resized-" ++ pr.name, pr.blob))) :=
  C7_order decFix encFix zipFix 800 600 true [itemA] outA runA_eq

/-- C8: on a completed run every submitted item decoded, and the i-th archive
entry is named "resized-" concatenated with the item's name, its bytes being
the encoded output at the planned canvas dimensions; entries and items
correspond one to one, so the archive holds no other entries. -/
theorem C8_entries (decode : List Nat → Option Surface)
    (encodeJpeg : Surface → Nat → Nat → List Nat)
    (generateZip : List (String × List Nat) → List Nat)
    (w h : ℚ) (p : Bool) (images : List ImageItem) (out : RunOutput)
    (hrun : processAndDownload decode encodeJpeg generateZip w h p images = some out) :
    out.entries.length = images.length ∧
    ∀ i img, images.get? i = some img →
      ∃ s, decode img.preview = some s ∧
        out.entries.get? i = some ("resized-" ++ img.name,
          encodeJpeg s (canvasDim (planDims s.width s.height w h p).1)
            (canvasDim (planDims s.width s.height w h p).2)) := by
  cases hpi : processItems decode encodeJpeg w h p images with
  | none =>
    simp only [processAndDownload, hpi] at hrun
    exact absurd hrun (by simp)
  | some processed =>
    simp only [processAndDownload, hpi, Option.some.injEq] at hrun
    have hlen := processItems_length decode encodeJpeg w h p images processed hpi
    have hnth := processItems_nth decode encodeJpeg w h p images processed hpi
    have hent : out.entries
        = processed.map (fun pr => ("resized-" ++ pr.name, pr.blob)) := by
      rw [← hrun]
    refine ⟨by rw [hent, List.length_map, hlen], fun i img himg => ?_⟩
    have hi : i < images.length := by
      by_contra hge
      rw [List.get?_eq_none.mpr (le_of_not_lt hge)] at himg
      exact absurd himg (by simp)
    have hres := hnth i
    rw [himg, Option.some_bind] at hres
    cases hdec : decode img.preview with
    | none =>
      have hnone : resizeImage decode encodeJpeg w h p img = none := by
        simp only [resizeImage, hdec]
      rw [hnone] at hres
      have hi2 : i < processed.length := by
        rw [hlen]
        exact hi
      rw [List.get?_eq_get hi2] at hres
      exact absurd hres (by simp)
    | some s =>
      have hsome : resizeImage decode encodeJpeg w h p img
          = some ⟨encodeJpeg s (canvasDim (planDims s.width s.height w h p).1)
              (canvasDim (planDims s.width s.height w h p).2), img.name⟩ := by
        simp only [resizeImage, hdec]
      refine ⟨s, rfl, ?_⟩
      rw [hent, List.get?_map, hres, hsome]
      rfl

/-- C8 witness: the completed one-item run's sole entry is named
"resized-a.png" and carries the encoded output of the decoded item. -/
theorem C8_entries_witness :
    outA.entries.length = [itemA].length ∧
    ∀ i img, [itemA].get? i = some img →
      ∃ s, decFix img.preview = some s ∧
        outA.entries.get? i = some ("resized-" ++ img.name,
          encFix s (canvasDim (planDims s.width s.height 800 600 true).1)
            (canvasDim (planDims s.width s.height 800 600 true).2)) :=
  C8_entries decFix encFix zipFix 800 600 true [itemA] outA runA_eq

/-- C9 (intent per spec, violated by the code): the source passes no `date`
option to `zip.file`, so each entry is stamped with the current date, which
the archive serialization embeds in the entry's headers -- the finalized
bytes depend on the clock.  With that clock input made explicit, two runs on
the same one-item batch with the same request produce identical entries
(names and bytes) yet different archive buffers at clock times 1 and 2,
contrary to the claimed byte-identical archives. -/
theorem C9_clock_dependent :
    (processAndDownloadAt decFix encFix zipFixAt 1 800 600 true [itemA]).map
        RunOutput.entries
      = (processAndDownloadAt decFix encFix zipFixAt 2 800 600 true [itemA]).map
        RunOutput.entries ∧
    (processAndDownloadAt decFix encFix zipFixAt 1 800 600 true [itemA]).map
        RunOutput.archiveBytes
      ≠ (processAndDownloadAt decFix encFix zipFixAt 2 800 600 true [itemA]).map
        RunOutput.archiveBytes := by
  rw [runAat_eq 1, runAat_eq 2]
  exact ⟨rfl, by decide⟩

/-- C10: admission (drop and file selection alike) depends only on the files
of image MIME type -- non-image files are excluded before the cap is checked --
and every item of the admitted state is either pre-existing or built from an
image file of the event. -/
theorem C10_only_image_files (prev : List ImageItem) (files : List ImageFile) :
    handleDrop prev files = handleDrop prev (files.filter isImageFile) ∧
    handleFileInput prev files = handleFileInput prev (files.filter isImageFile) ∧
    ∀ x ∈ handleDrop prev files,
      x ∈ prev ∨ ∃ f, f ∈ files ∧ isImageFile f = true ∧ x = mkItem f := by
  refine ⟨?_, ?_, ?_⟩
  · simp [handleDrop, List.filter_filter]
  · simp [handleFileInput, List.filter_filter]
  · intro x hx
    by_cases hcap : 30 < (files.filter isImageFile).length
    · left
      simpa only [handleDrop, if_pos hcap] using hx
    · simp only [handleDrop, if_neg hcap] at hx
      rcases List.mem_append.mp (List.mem_of_mem_take hx) with hp | hn
      · exact Or.inl hp
      · rcases List.mem_map.mp hn with ⟨f, hf, rfl⟩
        rcases List.mem_filter.mp hf with ⟨hfs, hfi⟩
        exact Or.inr ⟨f, hfs, hfi, rfl⟩

/-- C10 witness: a text file among the dropped files does not affect the
admitted state. -/
theorem C10_only_image_files_witness :
    handleDrop [] [pngFile 0, { name := "n.txt", type := "text/plain", bytes := [7] }]
      = handleDrop []
          ([pngFile 0, { name := "n.txt", type := "text/plain", bytes := [7] }].filter
            isImageFile) :=
  (C10_only_image_files []
    [pngFile 0, { name := "n.txt", type := "text/plain", bytes := [7] }]).1

end BatchResizer
